import Mathlib

/-!
Verification of the sinap IRC bot core (`src/sinap/irc.py`, `src/sinap/bot.py`)
against its natural-language specification.  Strings are modelled as lists of
characters; the Python string primitives used by the code (`split`, `strip`,
`startswith`, membership tests) are translated one by one below.
-/

namespace Sinap

/-- Strings are modelled as lists of characters. -/
abbrev Str := List Char

/-! ## Python string primitives -/

/-- Python `s.split(c, 1)` for a one-character separator: `some (l, r)` when
`s = l ++ c :: r` with `c ∉ l`, otherwise `none`. -/
def splitFirst (c : Char) : Str → Option (Str × Str)
  | [] => none
  | a :: rest =>
    if a = c then some ([], rest)
    else
      match splitFirst c rest with
      | none => none
      | some (l, r) => some (a :: l, r)

/-- Python `s.split(ab, 1)` for the two-character separator `[a, b]`:
splits at the leftmost occurrence of `a` immediately followed by `b`. -/
def splitFirst2 (a b : Char) : Str → Option (Str × Str)
  | [] => none
  | c :: rest =>
    if c = a ∧ rest.head? = some b then some ([], rest.tail)
    else
      match splitFirst2 a b rest with
      | none => none
      | some (l, r) => some (c :: l, r)

/-- Python `s.split(c)` for a one-character separator, keeping empty pieces
(`"".split(" ") = [""]`, `"a  b".split(" ") = ["a", "", "b"]`). -/
def splitAllChar (c : Char) : Str → List Str
  | [] => [[]]
  | a :: rest =>
    if a = c then [] :: splitAllChar c rest
    else
      match splitAllChar c rest with
      | [] => [[a]]
      | g :: gs => (a :: g) :: gs

/-- The whitespace characters recognised by Python `str.split()`/`str.strip()`
on ASCII input. -/
def isWs (c : Char) : Bool :=
  c = ' ' || c = '\t' || c = '\n' || c = '\r' || c = '\x0b' || c = '\x0c'

/-- Worker for `pySplit`: `cur` holds the reversed current token. -/
def pySplitGo (cur : Str) : Str → List Str
  | [] => if cur = [] then [] else [cur.reverse]
  | c :: rest =>
    if isWs c then
      if cur = [] then pySplitGo [] rest else cur.reverse :: pySplitGo [] rest
    else pySplitGo (c :: cur) rest

/-- Python `s.split()` (split on whitespace runs, discarding empty tokens). -/
def pySplit (s : Str) : List Str := pySplitGo [] s

/-- Python `s.split(None, m)`: at most `m` splits on whitespace runs; leading
whitespace is skipped, the remainder after the last split keeps its trailing
whitespace, and an all-whitespace remainder is dropped. -/
def pySplitMax (m : ℕ) (s : Str) : List Str :=
  match m, s.dropWhile (fun c => isWs c) with
  | _, [] => []
  | 0, s1 => [s1]
  | m' + 1, s1 =>
    s1.takeWhile (fun c => !(isWs c)) ::
      pySplitMax m' (s1.dropWhile (fun c => !(isWs c)))

/-- Python `s.strip()`. -/
def pyStrip (s : Str) : Str :=
  ((s.dropWhile (fun c => isWs c)).reverse.dropWhile (fun c => isWs c)).reverse

/-- Python `s.startswith(p)`. -/
def listStartsWith (p s : Str) : Bool := s.take p.length = p

/-! ## Message codec (`src/sinap/irc.py`, `Message` and `IRCProtocol`) -/

/-- A wire message (`irc.Message`): optional sender token `pfx`
(Python attribute `prefix`), command, and arguments. -/
structure Message where
  pfx : Option Str
  command : Str
  args : List Str
deriving Repr, DecidableEq

/-- The argument-part processing of `IRCProtocol.parse_message`, applied to the
text that follows the command and its separating space. -/
def parseArgs (data : Str) : List Str :=
  if data.head? = some ':' then [data.tail]
  else
    match splitFirst2 ' ' ':' data with
    | some (before, trailing) =>
      splitAllChar ' ' before ++ (if trailing = [] then [] else [trailing])
    | none => splitAllChar ' ' data

/-- `IRCProtocol.parse_message` after the leading-colon (sender token)
handling: split off the command at the first space, then parse arguments. -/
def parseRest (pfx : Option Str) (data : Str) : Message :=
  match splitFirst ' ' data with
  | none => ⟨pfx, data, []⟩
  | some (cmd, rest) => ⟨pfx, cmd, parseArgs rest⟩

/-- `IRCProtocol.parse_message`.  Returns `none` exactly where the Python code
raises `ValueError`: a line starting with `:` but containing no space. -/
def parse_message (data : Str) : Option Message :=
  if data.head? = some ':' then
    match splitFirst ' ' data.tail with
    | none => none
    | some (p, rest) => some (parseRest (some p) rest)
  else some (parseRest none data)

/-- The argument part written by `IRCProtocol.send_message`: all arguments
space-joined, the last one colon-marked iff it contains a space. -/
def formatArgs : List Str → Str
  | [] => []
  | [a] => if ' ' ∈ a then ':' :: a else a
  | a :: rest => a ++ ' ' :: formatArgs rest

/-- The `if args:` block of `IRCProtocol.send_message`: nothing for an empty
argument list, otherwise a space followed by the joined arguments. -/
def argsPart (args : List Str) : Str :=
  match args with
  | [] => []
  | _ :: _ => ' ' :: formatArgs args

/-- `IRCProtocol.send_message`: the line written to the transport, without the
final CRLF.  The stripping of trailing `None` optional arguments is left to
the callers; `args` holds the strings that remain. -/
def send_message_line (command : Str) (args : List Str) (pfx : Option Str) : Str :=
  (match pfx with
   | some p => ':' :: (p ++ [' '])
   | none => []) ++
  command ++ argsPart args

/-- The space-join of the arguments, as produced by `' '.join` in
`IRCProtocol.send_message`. -/
def joinSp : List Str → Str
  | [] => []
  | [a] => a
  | a :: rest => a ++ ' ' :: joinSp rest

/-- A message satisfying the conditions under which formatting then parsing is
the identity: the command is non-empty, contains no space and does not start
with a colon; the sender token, if present, contains no space; no argument
starts with a colon; only the last argument may contain spaces. -/
def ValidMessage (m : Message) : Prop :=
  m.command ≠ [] ∧ ' ' ∉ m.command ∧ m.command.head? ≠ some ':' ∧
  (∀ p ∈ m.pfx.toList, ' ' ∉ p) ∧
  (∀ a ∈ m.args, a.head? ≠ some ':') ∧
  (∀ a ∈ m.args.dropLast, ' ' ∉ a)

instance (m : Message) : Decidable (ValidMessage m) := by
  unfold ValidMessage
  infer_instance

/-- A concrete valid message on which the amended round-trip holds:
`:srv PRIVMSG #ch :hi there`. -/
def roundtripExample : Message :=
  ⟨some ['s', 'r', 'v'], ['P', 'R', 'I', 'V', 'M', 'S', 'G'],
    [['#', 'c', 'h'], ['h', 'i', ' ', 't', 'h', 'e', 'r', 'e']]⟩

/-! ## Reconnection backoff (`src/sinap/bot.py`, class `Backoff`)

Python floats are modelled as real numbers. -/

/-- `bot.Backoff`: the stored delay `_current`, the cap `_max_wait` and the
growth exponent `_exponent`. -/
structure Backoff where
  current : ℝ
  maxWait : ℝ
  expo : ℝ

/-- `Backoff()` as constructed by `Bot.connect`: default cap 300, exponent
1.8 and initial delay 2. -/
noncomputable def backoffInit : Backoff := ⟨2, 300, 9 / 5⟩

/-- `Backoff.sleep`: the stored delay is first clamped to the cap, the
coroutine then sleeps for the clamped value (returned as the first
component), and finally the stored delay is raised to the power
`_exponent` (`self._current **= self._exponent`). -/
noncomputable def Backoff.sleepStep (b : Backoff) : ℝ × Backoff :=
  let c := if b.current > b.maxWait then b.maxWait else b.current
  (c, ⟨c ^ b.expo, b.maxWait, b.expo⟩)

/-- `Backoff.reset`: the stored delay returns to 2 seconds.  Invoked by
`Bot.connect` immediately after a successful registration. -/
def Backoff.reset (b : Backoff) : Backoff := { b with current := 2 }

/-- The backoff state after `k` sleeps with no intervening reset, starting
from the freshly constructed `Backoff()`. -/
noncomputable def backoffStateSeq : ℕ → Backoff
  | 0 => backoffInit
  | k + 1 => (Backoff.sleepStep (backoffStateSeq k)).2

/-- The duration of the `k`-th backoff wait (0-indexed), with no intervening
reset. -/
noncomputable def backoffWait (k : ℕ) : ℝ :=
  (Backoff.sleepStep (backoffStateSeq k)).1

/-! ## Registration and nick collision
(`src/sinap/irc.py`, `IRCConnection.on_001` / `on_433`) -/

/-- The slice of `IRCConnection` state that drives registration: the current
nick, whether `_connect_future` exists, whether it is already done, and the
log of commands sent since registration started. -/
structure RegConn where
  nick : Str
  futureExists : Bool
  futureDone : Bool
  sent : List (Str × List Str)
deriving Repr, DecidableEq

/-- `IRCConnection.send_message`, observed through the sent-command log. -/
def RegConn.sendCmd (c : RegConn) (cmd : Str) (args : List Str) : RegConn :=
  { c with sent := c.sent ++ [(cmd, args)] }

/-- `IRCConnection.nick_`: send a NICK command. -/
def RegConn.nickCmd (c : RegConn) (n : Str) : RegConn :=
  c.sendCmd ['N', 'I', 'C', 'K'] [n]

/-- `IRCConnection.on_433` (ERR_NICKNAMEINUSE): while `_connect_future`
exists, append the suffix character to the nick and resend NICK. -/
def RegConn.on_433 (c : RegConn) : RegConn :=
  if c.futureExists then
    let c2 := { c with nick := c.nick ++ ['_'] }
    c2.nickCmd c2.nick
  else c

/-- `IRCConnection.on_001` (RPL_WELCOME): resolve the pending registration
future if it exists and is not yet done. -/
def RegConn.on_001 (c : RegConn) : RegConn :=
  if c.futureExists && !c.futureDone then { c with futureDone := true } else c

/-- The two registration replies exercised by the nick-collision scenario. -/
inductive RegReply
  | r433
  | r001
deriving Repr, DecidableEq

/-- Dispatch of one server reply to its `on_NNN` handler. -/
def RegConn.step (c : RegConn) : RegReply → RegConn
  | .r433 => c.on_433
  | .r001 => c.on_001

/-- Process a scripted sequence of server replies during registration. -/
def RegConn.run (c : RegConn) (rs : List RegReply) : RegConn :=
  rs.foldl RegConn.step c

/-! ## Outbound send queue and burst counter
(`src/sinap/irc.py`, `IRCConnection.send_pending_messages` /
`decrement_send_burst`) -/

/-- The slice of `IRCConnection` state for outbound flow control: the FIFO
send queue of `(command, args, prefix)` tuples, the burst counter
`_current_send_burst`, the cap `_max_send_burst`, and the number of lines
written to the transport. -/
structure SendState where
  queue : List (Str × List Str × Option Str)
  burst : ℤ
  maxBurst : ℤ
  written : ℕ
deriving Repr, DecidableEq

/-- The `while` loop of `IRCConnection.send_pending_messages`: pop and write
while the queue is non-empty and the burst counter is below the cap;
returns the remaining queue, the new counter and the number of writes. -/
def drainLoop : List (Str × List Str × Option Str) → ℤ → ℤ →
    List (Str × List Str × Option Str) × ℤ × ℕ
  | [], burst, _ => ([], burst, 0)
  | q :: qs, burst, maxB =>
    if burst < maxB then
      let r := drainLoop qs (burst + 1) maxB
      (r.1, r.2.1, r.2.2 + 1)
    else (q :: qs, burst, 0)

/-- `IRCConnection.send_pending_messages`. -/
def send_pending_messages (s : SendState) : SendState :=
  let r := drainLoop s.queue s.burst s.maxBurst
  { s with queue := r.1, burst := r.2.1, written := s.written + r.2.2 }

/-- `IRCConnection.send_message`: append to the queue (the drain it schedules
with `call_soon` is a separate event in the interleaving). -/
def enqueueMessage (s : SendState) (cmd : Str) (args : List Str)
    (pfx : Option Str) : SendState :=
  { s with queue := s.queue ++ [(cmd, args, pfx)] }

/-- `IRCConnection.decrement_send_burst`: the periodic timer decrements the
counter when it is positive (and schedules a drain, a separate event). -/
def decrement_send_burst (s : SendState) : SendState :=
  if s.burst > 0 then { s with burst := s.burst - 1 } else s

/-- One interleaving event on a connection: an enqueue, a scheduled queue
drain, or a burst-decrement timer firing. -/
inductive SendOp
  | enqueue (cmd : Str) (args : List Str) (pfx : Option Str)
  | drain
  | timer

/-- Apply one interleaving event. -/
def applySendOp (s : SendState) : SendOp → SendState
  | .enqueue cmd args pfx => enqueueMessage s cmd args pfx
  | .drain => send_pending_messages s
  | .timer => decrement_send_burst s

/-- The flow-control state as initialised by `IRCConnection.__init__`:
empty queue, burst counter 0, `_max_send_burst = 3`. -/
def sendInit : SendState := ⟨[], 0, 3, 0⟩

/-- Run an arbitrary interleaving of events from the initial state. -/
def runSendOps (ops : List SendOp) : SendState :=
  ops.foldl applySendOp sendInit

/-! ## Command argument validation (`src/sinap/bot.py`, `Bot.validate_args`) -/

/-- The second component of a tuple arity spec: a number, `'*'` or `':'`. -/
inductive NMax
  | num (n : ℕ)
  | star
  | colon
deriving Repr, DecidableEq

/-- An arity spec (`nargs`): an integer, `'*'`, `':'`, or a pair of a
minimum and an `NMax`. -/
inductive NArgs
  | exact (n : ℕ)
  | star
  | colon
  | tup (lo : ℕ) (hi : NMax)
deriving Repr, DecidableEq

/-- The part of `Bot.validate_args` below the `'*'`/`':'` shortcuts, with
`min` and `max` already extracted. -/
def validateMinMax (args : Str) (lo : ℕ) (hi : NMax) : Option (List Str) :=
  if lo = 0 ∧ hi = NMax.num 0 then
    if args ≠ [] then none else some []
  else
    match hi with
    | .star =>
      let xs := pySplitMax lo args
      if lo ≤ xs.length ∧ xs.length ≤ lo + 1 then some xs else none
    | .colon =>
      let xs := pySplitMax lo args
      if xs.length = lo + 1 then some xs else none
    | .num hiN =>
      let xs := pySplit args
      if lo ≤ xs.length ∧ xs.length ≤ hiN then some xs else none

/-- `Bot.validate_args`: `none` models Python `None` (validation failure). -/
def validate_args (args : Str) (nargs : NArgs) : Option (List Str) :=
  match nargs with
  | .star => if args ≠ [] then some [args] else some []
  | .colon => if args ≠ [] then some [args] else none
  | .exact n => validateMinMax args n (.num n)
  | .tup lo hi => validateMinMax args lo hi

/-! ## Users, channels, disconnect (`src/sinap/irc.py`, `IRCConnection`) -/

/-- `irc.User`: `user` and `host` are present only for full identities. -/
structure User where
  nick : Str
  user : Option Str
  host : Option Str
deriving Repr, DecidableEq

/-- `IRCConnection.parse_user`: the anchored regex
`^(?P<nick>[^!]+)(!(?P<user>[^@]+)@(?P<host>.*))?$`.  The nick runs to the
first `!` and must be non-empty; if a `!` is present the rest must be a
non-empty `@`-free user part, a `@`, and an arbitrary host. -/
def parse_user (text : Str) : Option User :=
  match splitFirst '!' text with
  | none => if text = [] then none else some ⟨text, none, none⟩
  | some (n, rest) =>
    if n = [] then none
    else
      match splitFirst '@' rest with
      | none => none
      | some (u, h) => if u = [] then none else some ⟨n, some u, some h⟩

/-- `IRCConnection.is_safe_channel` with the fixed
`safe_channel_prefix = '!'`. -/
def is_safe_channel (name : Str) : Bool := name.head? = some '!'

/-- `IRCConnection.parse_channel_name` with the fixed
`safe_channel_idlen = 5`: a long-enough safe channel yields
`(sigil + suffix-after-id, full name)`, everything else `(name, name)`. -/
def parse_channel_name (name : Str) : Str × Str :=
  if is_safe_channel name then
    if 5 + 2 ≤ name.length then (name.take 1 ++ name.drop (5 + 1), name)
    else (name, name)
  else (name, name)

/-- Python dict assignment `d[k] = v` on an association list. -/
def dictSet (m : List (Str × Str)) (k v : Str) : List (Str × Str) :=
  if m.any (fun p => p.1 = k) then
    m.map (fun p => if p.1 = k then (k, v) else p)
  else m ++ [(k, v)]

/-- The slice of `IRCConnection` state touched by the disconnect branch of
`process_message` and by `on_join`: the current nick, the channel
membership map (short name → long name), the pending one-shot message
listeners (a count), and whether the burst-decrement timer runs. -/
structure ConnSt where
  nick : Str
  channels : List (Str × Str)
  listeners : ℕ
  burstTimerOn : Bool
deriving Repr, DecidableEq

/-- The `msg is None` branch of `IRCConnection.process_message` (transport
loss): `self.channels.clear()`, every pending listener is failed with
`Disconnected` and removed, and the burst decrementer is stopped. -/
def process_disconnect (s : ConnSt) : ConnSt :=
  { s with channels := [], listeners := 0, burstTimerOn := false }

/-- `IRCConnection.on_join`: when the join is our own (the parsed sender
nick equals the session nick), record the channel under its short name. -/
def on_join (s : ConnSt) (pfxText : Str) (channel : Str) : ConnSt :=
  match parse_user pfxText with
  | some u =>
    if u.nick = s.nick then
      let p := parse_channel_name channel
      { s with channels := dictSet s.channels p.1 p.2 }
    else s
  | none => s

/-! ## Command dispatch (`src/sinap/bot.py`, `Bot.on_privmsg`;
`src/sinap/scope.py`, `Scope`) -/

/-- `IRCConnection.is_channel`: channel names start with `&`, `#`, `+`
or `!`. -/
def is_channel (name : Str) : Bool :=
  name.head? = some '&' || name.head? = some '#' ||
    name.head? = some '+' || name.head? = some '!'

/-- `Scope.__init__` with `raw=False` (the Python parameter `to` is a Lean
keyword, renamed `to'`): a channel message replies to the channel, a private
message to the sender's nick. -/
def scopeTarget (to' : Str) (senderNick : Str) : Str :=
  if is_channel to' then to' else senderNick

/-- A registered command entry (`Bot.register_commands`): the handler is
identified by its name. -/
structure Handler where
  hname : Str
  nargs : NArgs
  synopsis : Str
deriving Repr, DecidableEq

/-- Python `commands.get(command, None)` on an association list. -/
def lookupCmd (tbl : List (Str × Handler)) (k : Str) : Option Handler :=
  (tbl.find? (fun p => p.1 = k)).map (fun p => p.2)

/-- An effect scheduled by `Bot.on_privmsg`: running a command handler,
sending a PRIVMSG, or invoking a plain message handler. -/
inductive BotEffect
  | runHandler (hname : Str) (args : List Str)
  | privmsgOut (target : Str) (text : Str)
  | msgHandler (hname : Str) (text : Str)
deriving Repr, DecidableEq

/-- The command/argument split in `Bot.on_privmsg`: if the stripped text
contains a space it is split once on whitespace, otherwise it is the bare
command with empty args. -/
def splitCmdArgs (msg : Str) : Str × Str :=
  if ' ' ∈ msg then
    match pySplitMax 1 msg with
    | [c, a] => (c, a)
    | [c] => (c, [])
    | _ => ([], [])
  else (msg, [])

/-- The usage message `'Usage: %s%s' % (prefix, synopsis)`. -/
def usageText (p synopsis : Str) : Str :=
  ['U', 's', 'a', 'g', 'e', ':', ' '] ++ p ++ synopsis

/-- `Bot.on_privmsg`, as the list of scheduled effects.  `isAdmin` abstracts
`self.is_admin(user)` (hostmask matching against configured masks).  Note
that a prefixed message with an unknown command falls through to the plain
message handlers with the stripped text (Python reassigns `message`). -/
def on_privmsg (commandPrefixStr : Str) (isAdmin : Bool)
    (adminCommands publicCommands : List (Str × Handler))
    (messageHandlers : List Str)
    (sender target message : Str) : List BotEffect :=
  match parse_user sender with
  | none => []
  | some user =>
    let scope := scopeTarget target user.nick
    if listStartsWith commandPrefixStr message then
      let msg1 := pyStrip (message.drop commandPrefixStr.length)
      let ca := splitCmdArgs msg1
      let commands := if isAdmin then adminCommands else publicCommands
      match lookupCmd commands ca.1 with
      | some h =>
        match validate_args ca.2 h.nargs with
        | some vargs => [BotEffect.runHandler h.hname vargs]
        | none => [BotEffect.privmsgOut scope (usageText commandPrefixStr h.synopsis)]
      | none => messageHandlers.map (fun n => BotEffect.msgHandler n msg1)
    else messageHandlers.map (fun n => BotEffect.msgHandler n message)

/-! ## Reconfiguration vs registration identity
(`src/sinap/bot.py`, `BotIRCConnection._apply_changes`;
`src/sinap/irc.py`, `IRCConnection.register`) -/

/-- The slice of `BotIRCConnection` state touched by `_apply_changes` and
read by `register()`.  `regUsername`/`regRealname` model the private
attributes `_username`/`_realname` set by `IRCConnection.__init__` and read
by `register`; `usernameAttr`/`realnameAttr` model the distinct plain
attributes `username`/`realname` that `_apply_changes` assigns. -/
structure BotConnSt where
  host : Str
  port : ℕ
  nick : Str
  password : Option Str
  regUsername : Str
  regRealname : Str
  usernameAttr : Option Str
  realnameAttr : Option Str
  newHost : Option Str
  newPort : Option ℕ
  disconnectCalled : Bool
  sentNick : List Str
deriving Repr, DecidableEq

/-- A reconfiguration mapping as consumed by `_apply_changes`; presence of
an optional key is modelled with `Option`. -/
structure ReconfigCfg where
  server : Str
  port : Option ℕ
  nick : Str
  password : Option (Option Str)
  username : Option Str
  realname : Option Str
deriving Repr, DecidableEq

/-- `BotIRCConnection._apply_changes`: conditional attribute updates, then
either a reconnect to a new target (host/port change), a nick-only rename,
or nothing. -/
def apply_changes (cfg : ReconfigCfg) (s : BotConnSt) : BotConnSt :=
  let port := cfg.port.getD 6667
  let s1 := match cfg.password with
    | some v => { s with password := v }
    | none => s
  let s2 := match cfg.username with
    | some v => { s1 with usernameAttr := some v }
    | none => s1
  let s3 := match cfg.realname with
    | some v => { s2 with realnameAttr := some v }
    | none => s2
  if s3.host ≠ cfg.server ∨ s3.port ≠ port then
    { s3 with newHost := some cfg.server, newPort := some port,
              nick := cfg.nick, disconnectCalled := true }
  else if s3.nick ≠ cfg.nick then
    { s3 with nick := cfg.nick, sentNick := s3.sentNick ++ [cfg.nick] }
  else s3

/-- The USER command sent by `IRCConnection.register`:
`self.user(self._username, '8', self._realname)` sends
`USER <_username> 8 * <_realname>`. -/
def registerUserCmd (s : BotConnSt) : Str × List Str :=
  (['U', 'S', 'E', 'R'], [s.regUsername, ['8'], ['*'], s.regRealname])

example :
    parse_message ('P' :: 'I' :: 'N' :: 'G' :: ' ' :: ':' :: 'a' :: ' ' :: ['b'])
      = some ⟨none, ['P', 'I', 'N', 'G'], [['a', ' ', 'b']]⟩ := by decide

example :
    parse_message (':' :: 's' :: ' ' :: 'C' :: ' ' :: 'x' :: ' ' :: ':' :: 'y' :: [' ']) =
      some ⟨some ['s'], ['C'], [['x'], ['y', ' ']]⟩ := by decide

example :
    send_message_line ['C'] [['x'], ['y', ' ', 'z']] (some ['s'])
      = (':' :: 's' :: ' ' :: 'C' :: ' ' :: 'x' :: ' ' :: ':' :: 'y' :: ' ' :: ['z']) := by
  decide

/-! ## Lemmas about the splitting primitives -/

theorem splitFirst_eq_none {c : Char} {s : Str} (h : c ∉ s) : splitFirst c s = none := by
  induction s with
  | nil => rfl
  | cons a rest ih =>
    have h1 : ¬a = c := fun e => h (by simp [e])
    have h2 : c ∉ rest := fun m => h (List.mem_cons_of_mem _ m)
    simp [splitFirst, h1, ih h2]

theorem splitFirst_append {c : Char} {l : Str} (r : Str) (h : c ∉ l) :
    splitFirst c (l ++ c :: r) = some (l, r) := by
  induction l with
  | nil => simp [splitFirst]
  | cons a t ih =>
    have h1 : ¬a = c := fun e => h (by simp [e])
    have h2 : c ∉ t := fun m => h (List.mem_cons_of_mem _ m)
    simp [splitFirst, h1, ih h2]

theorem splitAllChar_of_not_mem {c : Char} {s : Str} (h : c ∉ s) :
    splitAllChar c s = [s] := by
  induction s with
  | nil => rfl
  | cons a t ih =>
    have h1 : ¬a = c := fun e => h (by simp [e])
    have h2 : c ∉ t := fun m => h (List.mem_cons_of_mem _ m)
    simp [splitAllChar, h1, ih h2]

theorem splitAllChar_append {c : Char} {x : Str} (s : Str) (h : c ∉ x) :
    splitAllChar c (x ++ c :: s) = x :: splitAllChar c s := by
  induction x with
  | nil => simp [splitAllChar]
  | cons a t ih =>
    have h1 : ¬a = c := fun e => h (by simp [e])
    have h2 : c ∉ t := fun m => h (List.mem_cons_of_mem _ m)
    simp [splitAllChar, h1, ih h2]

theorem splitFirst2_skip {x : Str} (s : Str) (h : ' ' ∉ x) :
    splitFirst2 ' ' ':' (x ++ s) =
      (splitFirst2 ' ' ':' s).map (fun p => (x ++ p.1, p.2)) := by
  induction x with
  | nil =>
    cases hs : splitFirst2 ' ' ':' s with
    | none => simp [hs]
    | some p => simp [hs]
  | cons a t ih =>
    have ha : ¬a = ' ' := fun e => h (by simp [e])
    have h2 : ' ' ∉ t := fun m => h (List.mem_cons_of_mem _ m)
    cases hs : splitFirst2 ' ' ':' s with
    | none => simp [splitFirst2, ha, ih h2, hs]
    | some p => simp [splitFirst2, ha, ih h2, hs]

theorem splitFirst2_space_cons (s : Str) (h : s.head? ≠ some ':') :
    splitFirst2 ' ' ':' (' ' :: s) =
      (splitFirst2 ' ' ':' s).map (fun p => (' ' :: p.1, p.2)) := by
  cases hs : splitFirst2 ' ' ':' s with
  | none => simp [splitFirst2, h, hs]
  | some p => simp [splitFirst2, h, hs]

theorem splitFirst2_found {x : Str} (r : Str) (h : ' ' ∉ x) :
    splitFirst2 ' ' ':' (x ++ ' ' :: ':' :: r) = some (x, r) := by
  rw [splitFirst2_skip _ h]
  simp [splitFirst2]

theorem splitFirst2_none_of_no_space {s : Str} (h : ' ' ∉ s) :
    splitFirst2 ' ' ':' s = none := by
  have h2 := splitFirst2_skip ([] : Str) h
  simpa using h2

theorem splitFirst2_prepend_sep (x s : Str) (hx : ' ' ∉ x) (hs : s.head? ≠ some ':') :
    splitFirst2 ' ' ':' (x ++ ' ' :: s) =
      (splitFirst2 ' ' ':' s).map (fun p => (x ++ ' ' :: p.1, p.2)) := by
  rw [splitFirst2_skip _ hx, splitFirst2_space_cons _ hs]
  cases splitFirst2 ' ' ':' s <;> simp

/-! ## The space-joined leading arguments -/

theorem joinSp_cons {a : Str} {rest : List Str} (h : rest ≠ []) :
    joinSp (a :: rest) = a ++ ' ' :: joinSp rest := by
  cases rest with
  | nil => exact absurd rfl h
  | cons b t => rfl

theorem formatArgs_cons {a : Str} {rest : List Str} (h : rest ≠ []) :
    formatArgs (a :: rest) = a ++ ' ' :: formatArgs rest := by
  cases rest with
  | nil => exact absurd rfl h
  | cons b t => rfl

theorem formatArgs_concat_nospace {L : List Str} {b : Str} (h : ' ' ∉ b) :
    formatArgs (L ++ [b]) = joinSp (L ++ [b]) := by
  induction L with
  | nil => simp [formatArgs, joinSp, h]
  | cons a t ih =>
    have hne : t ++ [b] ≠ [] := by simp
    rw [List.cons_append, formatArgs_cons hne, joinSp_cons hne, ih]

theorem formatArgs_concat_space {L : List Str} {b : Str} (hL : L ≠ []) (h : ' ' ∈ b) :
    formatArgs (L ++ [b]) = joinSp L ++ ' ' :: ':' :: b := by
  induction L with
  | nil => exact absurd rfl hL
  | cons a t ih =>
    cases t with
    | nil => simp [formatArgs, joinSp, h]
    | cons c u =>
      rw [List.cons_append, formatArgs_cons (by simp), ih (by simp),
        @joinSp_cons a (c :: u) (by simp)]
      simp

theorem joinSp_head_ne {c : Str} (u : List Str) (hc : c.head? ≠ some ':') :
    (joinSp (c :: u)).head? ≠ some ':' := by
  cases u with
  | nil => simpa [joinSp] using hc
  | cons d v =>
    rw [joinSp_cons (by simp)]
    cases c with
    | nil => simp
    | cons ch cs => simpa using hc

theorem head_append_ne {u v : Str} (hu : u.head? ≠ some ':') (hv : v.head? ≠ some ':') :
    (u ++ v).head? ≠ some ':' := by
  cases u with
  | nil => simpa using hv
  | cons a t => simpa using hu

theorem splitFirst2_joinSp {L : List Str} (r : Str) (hL : L ≠ [])
    (h : ∀ x ∈ L, ' ' ∉ x ∧ x.head? ≠ some ':') :
    splitFirst2 ' ' ':' (joinSp L ++ ' ' :: ':' :: r) = some (joinSp L, r) := by
  induction L with
  | nil => exact absurd rfl hL
  | cons a t ih =>
    cases t with
    | nil => simpa [joinSp] using splitFirst2_found r (h a (by simp)).1
    | cons c u =>
      have hhd : (joinSp (c :: u) ++ ' ' :: ':' :: r).head? ≠ some ':' :=
        head_append_ne (joinSp_head_ne u (h c (by simp)).2) (by simp)
      rw [@joinSp_cons a (c :: u) (by simp), List.append_assoc, List.cons_append,
        splitFirst2_skip _ (h a (by simp)).1, splitFirst2_space_cons _ hhd,
        ih (by simp) (fun x hx => h x (List.mem_cons_of_mem _ hx))]
      simp

theorem splitFirst2_joinSp_none {L : List Str}
    (h : ∀ x ∈ L, ' ' ∉ x ∧ x.head? ≠ some ':') :
    splitFirst2 ' ' ':' (joinSp L) = none := by
  induction L with
  | nil => rfl
  | cons a t ih =>
    cases t with
    | nil => simpa [joinSp] using splitFirst2_none_of_no_space (h a (by simp)).1
    | cons c u =>
      rw [@joinSp_cons a (c :: u) (by simp),
        splitFirst2_prepend_sep _ _ (h a (by simp)).1 (joinSp_head_ne u (h c (by simp)).2),
        ih (fun x hx => h x (List.mem_cons_of_mem _ hx))]
      rfl

theorem splitAllChar_joinSp {L : List Str} (hL : L ≠ []) (h : ∀ x ∈ L, ' ' ∉ x) :
    splitAllChar ' ' (joinSp L) = L := by
  induction L with
  | nil => exact absurd rfl hL
  | cons a t ih =>
    cases t with
    | nil => simpa [joinSp] using splitAllChar_of_not_mem (h a (by simp))
    | cons c u =>
      rw [@joinSp_cons a (c :: u) (by simp), splitAllChar_append _ (h a (by simp)),
        ih (by simp) (fun x hx => h x (List.mem_cons_of_mem _ hx))]

/-! ## Round-trip of the message codec -/

theorem parseArgs_format (args : List Str) (hne : args ≠ [])
    (hhead : ∀ a ∈ args, a.head? ≠ some ':')
    (hlead : ∀ a ∈ args.dropLast, ' ' ∉ a) :
    parseArgs (formatArgs args) = args := by
  rcases List.eq_nil_or_concat' args with rfl | ⟨L, b, rfl⟩
  · exact absurd rfl hne
  have hdrop : (L ++ [b]).dropLast = L := by simp
  have hb : b.head? ≠ some ':' := hhead b (by simp)
  have hL : ∀ x ∈ L, ' ' ∉ x := fun x hx => hlead x (by rw [hdrop]; exact hx)
  have hLh : ∀ x ∈ L, x.head? ≠ some ':' := fun x hx => hhead x (by simp [hx])
  have hLb : ∀ x ∈ L, ' ' ∉ x ∧ x.head? ≠ some ':' := fun x hx => ⟨hL x hx, hLh x hx⟩
  by_cases hsp : ' ' ∈ b
  · cases L with
    | nil => simp [formatArgs, hsp, parseArgs]
    | cons a t =>
      have hbne : b ≠ [] := by
        rintro rfl
        simp at hsp
      rw [formatArgs_concat_space (by simp) hsp]
      unfold parseArgs
      rw [if_neg (head_append_ne (joinSp_head_ne t (hLh a (by simp))) (by simp)),
        splitFirst2_joinSp _ (by simp) hLb]
      simp [hbne, splitAllChar_joinSp (by simp) hL]
  · cases L with
    | nil =>
      simp [formatArgs, hsp, parseArgs, hb, splitFirst2_none_of_no_space hsp,
        splitAllChar_of_not_mem hsp]
    | cons a t =>
      have hall : ∀ x ∈ (a :: t) ++ [b], ' ' ∉ x ∧ x.head? ≠ some ':' := by
        intro x hx
        rcases List.mem_append.1 hx with hx1 | hx1
        · exact hLb x hx1
        · rcases List.mem_singleton.1 hx1 with rfl
          exact ⟨hsp, hb⟩
      rw [formatArgs_concat_nospace hsp]
      unfold parseArgs
      rw [List.cons_append, if_neg (joinSp_head_ne _ (hLh a (by simp))),
        splitFirst2_joinSp_none (by simpa using hall),
        splitAllChar_joinSp (by simp) (fun x hx => (hall x (by simpa using hx)).1)]

theorem parseRest_format (pfx : Option Str) (cmd : Str) (args : List Str)
    (hc : ' ' ∉ cmd) (ha1 : ∀ a ∈ args, a.head? ≠ some ':')
    (ha2 : ∀ a ∈ args.dropLast, ' ' ∉ a) :
    parseRest pfx (cmd ++ argsPart args) = ⟨pfx, cmd, args⟩ := by
  cases args with
  | nil => simp [argsPart, parseRest, splitFirst_eq_none hc]
  | cons a t =>
    simp only [argsPart, parseRest, splitFirst_append _ hc]
    rw [parseArgs_format (a :: t) (by simp) ha1 ha2]

/-- Claim C1, as stated, is false: the message with no sender token, command
`PING` and single argument `:x` is valid in the claim's sense (non-empty
command, only the last argument may contain spaces), but formatting it yields
the line `PING :x`, which parses back with argument list `["x"]`, not
`[":x"]`. -/
theorem c1_roundtrip_counterexample :
    send_message_line ['P', 'I', 'N', 'G'] [[':', 'x']] none
        = ['P', 'I', 'N', 'G', ' ', ':', 'x'] ∧
      (parse_message ['P', 'I', 'N', 'G', ' ', ':', 'x']).map Message.args
        = some [['x']] ∧
      some [['x']] ≠ some [[':', 'x']] := by
  decide

/-- Claim C1, amended: for a valid message whose command and sender token are
space-free, whose command and arguments do not start with a colon, and where
only the last argument contains spaces, parsing the formatted line returns
exactly the message; consequently formatting the parse result reproduces the
line. -/
theorem c1_roundtrip (m : Message) (h : ValidMessage m) :
    parse_message (send_message_line m.command m.args m.pfx) = some m ∧
    ∀ m', parse_message (send_message_line m.command m.args m.pfx) = some m' →
      send_message_line m'.command m'.args m'.pfx
        = send_message_line m.command m.args m.pfx := by
  obtain ⟨hc1, hc2, hc3, hp, ha1, ha2⟩ := h
  have hmain : parse_message (send_message_line m.command m.args m.pfx) = some m := by
    obtain ⟨pfx, cmd, args⟩ := m
    simp only at hc1 hc2 hc3 hp ha1 ha2
    cases pfx with
    | none =>
      have hline : send_message_line cmd args none = cmd ++ argsPart args := by
        simp [send_message_line]
      rw [hline]
      have hhd : (cmd ++ argsPart args).head? ≠ some ':' := by
        cases cmd with
        | nil => exact absurd rfl hc1
        | cons c cs => simpa using hc3
      rw [parse_message, if_neg hhd]
      rw [parseRest_format none cmd args hc2 ha1 ha2]
    | some p =>
      have hline : send_message_line cmd args (some p)
          = ':' :: (p ++ ' ' :: (cmd ++ argsPart args)) := by
        simp [send_message_line]
      rw [hline]
      have hps : ' ' ∉ p := hp p (by simp)
      rw [parse_message]
      simp [splitFirst_append _ hps, parseRest_format (some p) cmd args hc2 ha1 ha2]
  refine ⟨hmain, fun m' hm' => ?_⟩
  rw [hmain] at hm'
  cases hm'
  rfl

/-- Witness for `c1_roundtrip` at the concrete message `roundtripExample`. -/
theorem c1_roundtrip_witness :
    ValidMessage roundtripExample ∧
      parse_message (send_message_line roundtripExample.command
        roundtripExample.args roundtripExample.pfx) = some roundtripExample :=
  ⟨by decide, (c1_roundtrip roundtripExample (by decide)).1⟩

/-- Claim C2, as stated, is false: for the line `CMD :a :b` the remainder
after the command, `:a :b`, contains a ` :` sequence, so the claim predicts
leading args from space-splitting `:a` plus trailing `b`, i.e.
`[":a", "b"]` — but `parse_message` takes the colon-initial remainder whole
and returns the single argument `a :b`. -/
theorem c2_parse_counterexample :
    parse_message ['C', 'M', 'D', ' ', ':', 'a', ' ', ':', 'b']
        = some ⟨none, ['C', 'M', 'D'], [['a', ' ', ':', 'b']]⟩ ∧
      [['a', ' ', ':', 'b']] ≠ [[':', 'a'], ['b']] := by
  decide

/-- Claim C2, amended: when the remainder after the command does not itself
start with a colon and the text after the first ` :` sequence is non-empty,
everything after that sequence is returned as one final trailing argument and
everything before it is space-split into the leading args; a line consisting
of only a command parses to an empty args list. -/
theorem c2_parse_trailing :
    (∀ (cmd rest before trailing : Str), cmd ≠ [] → ' ' ∉ cmd →
      cmd.head? ≠ some ':' → rest.head? ≠ some ':' →
      splitFirst2 ' ' ':' rest = some (before, trailing) → trailing ≠ [] →
      parse_message (cmd ++ ' ' :: rest)
        = some ⟨none, cmd, splitAllChar ' ' before ++ [trailing]⟩) ∧
    (∀ cmd : Str, ' ' ∉ cmd → cmd.head? ≠ some ':' →
      parse_message cmd = some ⟨none, cmd, []⟩) := by
  constructor
  · intro cmd rest before trailing h1 h2 h3 h4 h5 h6
    have hhd : (cmd ++ ' ' :: rest).head? ≠ some ':' := by
      cases cmd with
      | nil => exact absurd rfl h1
      | cons c cs => simpa using h3
    rw [parse_message, if_neg hhd]
    simp only [parseRest, splitFirst_append _ h2]
    simp [parseArgs, h4, h5, h6]
  · intro cmd h1 h2
    have hhd : cmd.head? ≠ some ':' := h2
    rw [parse_message, if_neg hhd]
    simp [parseRest, splitFirst_eq_none h1]

/-- Witness for `c2_parse_trailing` on the line `JOIN #c :hi` (trailing
argument `hi`, leading args from `#c`) and the bare-command line `PING`. -/
theorem c2_parse_trailing_witness :
    parse_message (['J', 'O', 'I', 'N'] ++ ' ' :: ['#', 'c', ' ', ':', 'h', 'i'])
        = some ⟨none, ['J', 'O', 'I', 'N'],
            splitAllChar ' ' ['#', 'c'] ++ [['h', 'i']]⟩ ∧
      parse_message ['P', 'I', 'N', 'G'] = some ⟨none, ['P', 'I', 'N', 'G'], []⟩ :=
  ⟨c2_parse_trailing.1 ['J', 'O', 'I', 'N'] ['#', 'c', ' ', ':', 'h', 'i']
      ['#', 'c'] ['h', 'i'] (by decide) (by decide) (by decide) (by decide)
      (by decide) (by decide),
    c2_parse_trailing.2 ['P', 'I', 'N', 'G'] (by decide) (by decide)⟩

/-! ## Backoff growth -/

theorem backoff_invariant (k : ℕ) :
    (backoffStateSeq k).maxWait = 300 ∧ (backoffStateSeq k).expo = 9 / 5 ∧
      2 ≤ (backoffStateSeq k).current ∧
      ((backoffStateSeq k).current = (2 : ℝ) ^ (((9 : ℝ) / 5) ^ k) ∨
        (300 < (backoffStateSeq k).current ∧
          300 < (2 : ℝ) ^ (((9 : ℝ) / 5) ^ k))) := by
  induction k with
  | zero =>
    refine ⟨rfl, rfl, by norm_num [backoffStateSeq, backoffInit], Or.inl ?_⟩
    show (2 : ℝ) = (2 : ℝ) ^ (((9 : ℝ) / 5) ^ 0)
    rw [pow_zero, Real.rpow_one]
  | succ k ih =>
    obtain ⟨hmax, hexp, hcur, hform⟩ := ih
    have hstate : backoffStateSeq (k + 1)
        = (Backoff.sleepStep (backoffStateSeq k)).2 := rfl
    set b := backoffStateSeq k with hb
    set c : ℝ := if b.current > b.maxWait then b.maxWait else b.current with hc
    have hcomp : backoffStateSeq (k + 1) = ⟨c ^ b.expo, b.maxWait, b.expo⟩ := by
      rw [hstate]
      rfl
    have hc2 : 2 ≤ c := by
      rw [hc]
      split
      · rw [hmax]
        norm_num
      · exact hcur
    have hc300 : c ≤ 300 := by
      rw [hc]
      split
      · rw [hmax]
      · rename_i hgt
        rw [hmax] at hgt
        linarith [not_lt.1 hgt]
    have hgrow : c ≤ c ^ ((9 : ℝ) / 5) := by
      calc c = c ^ (1 : ℝ) := (Real.rpow_one c).symm
      _ ≤ c ^ ((9 : ℝ) / 5) :=
        Real.rpow_le_rpow_of_exponent_le (by linarith) (by norm_num)
    refine ⟨by rw [hcomp, hmax], by rw [hcomp, hexp], ?_, ?_⟩
    · rw [hcomp]
      show 2 ≤ c ^ b.expo
      rw [hexp]
      linarith
    · rw [hcomp]
      show c ^ b.expo = (2 : ℝ) ^ (((9 : ℝ) / 5) ^ (k + 1)) ∨
        (300 < c ^ b.expo ∧ 300 < (2 : ℝ) ^ (((9 : ℝ) / 5) ^ (k + 1)))
      rw [hexp]
      have hek : (2 : ℝ) ^ (((9 : ℝ) / 5) ^ k * ((9 : ℝ) / 5))
          = ((2 : ℝ) ^ (((9 : ℝ) / 5) ^ k)) ^ ((9 : ℝ) / 5) :=
        Real.rpow_mul (by norm_num) _ _
      have hsucc : ((9 : ℝ) / 5) ^ (k + 1) = ((9 : ℝ) / 5) ^ k * ((9 : ℝ) / 5) :=
        pow_succ _ _
      by_cases hlt : b.current > b.maxWait
      · have hcval : c = 300 := by
          rw [hc, if_pos hlt, hmax]
        have h300 : (300 : ℝ) < b.current := by
          rw [hmax] at hlt
          exact hlt
        have hbig : 300 < (2 : ℝ) ^ (((9 : ℝ) / 5) ^ k) := by
          rcases hform with hf | hf
          · rw [← hf]
            exact h300
          · exact hf.2
        have hmono : (300 : ℝ) ^ ((9 : ℝ) / 5)
            < ((2 : ℝ) ^ (((9 : ℝ) / 5) ^ k)) ^ ((9 : ℝ) / 5) :=
          Real.rpow_lt_rpow (by norm_num) hbig (by norm_num)
        have hself : (300 : ℝ) < (300 : ℝ) ^ ((9 : ℝ) / 5) := by
          calc (300 : ℝ) = (300 : ℝ) ^ (1 : ℝ) := (Real.rpow_one _).symm
          _ < (300 : ℝ) ^ ((9 : ℝ) / 5) :=
            Real.rpow_lt_rpow_of_exponent_lt (by norm_num) (by norm_num)
        refine Or.inr ⟨?_, ?_⟩
        · rw [hcval]
          exact hself
        · rw [hsucc, hek]
          linarith
      · have hcval : c = b.current := by
          rw [hc, if_neg hlt]
        have hble : b.current ≤ 300 := by
          rw [hmax] at hlt
          exact not_lt.1 hlt
        rcases hform with hf | hf
        · refine Or.inl ?_
          rw [hcval, hf, hsucc, hek]
        · exact absurd hf.1 (by linarith)

theorem backoffWait_eq (k : ℕ) :
    backoffWait k = min 300 ((2 : ℝ) ^ (((9 : ℝ) / 5) ^ k)) := by
  obtain ⟨hmax, hexp, hcur, hform⟩ := backoff_invariant k
  have hw : backoffWait k
      = if (backoffStateSeq k).current > (backoffStateSeq k).maxWait
        then (backoffStateSeq k).maxWait else (backoffStateSeq k).current := rfl
  rw [hw, hmax]
  rcases hform with hf | hf
  · rw [hf]
    by_cases hlt : (300 : ℝ) < (2 : ℝ) ^ (((9 : ℝ) / 5) ^ k)
    · rw [if_pos hlt, min_eq_left (le_of_lt hlt)]
    · rw [if_neg hlt, min_eq_right (not_lt.1 hlt)]
  · rw [if_pos hf.1, min_eq_left (le_of_lt hf.2)]

/-- Claim C3, as stated, is false: the claim predicts the second wait (index
1) to be the initial 2 seconds multiplied by 1.8, i.e. 3.6 seconds, but the
code raises the delay to the power 1.8 (`self._current **= self._exponent`),
so the second wait is `2 ** 1.8 ≈ 3.48` seconds, which differs from 3.6
(their fifth powers are 512 and 604.66176). -/
theorem c3_backoff_counterexample :
    backoffWait 1 ≠ min 300 (2 * ((9 : ℝ) / 5) ^ 1) := by
  have h1 : backoffWait 1 = min 300 ((2 : ℝ) ^ (((9 : ℝ) / 5) ^ 1)) :=
    backoffWait_eq 1
  have hle : ((2 : ℝ) ^ (((9 : ℝ) / 5) ^ 1 : ℝ)) ≤ 300 := by
    have h4 : ((2 : ℝ) ^ (((9 : ℝ) / 5) ^ 1 : ℝ)) ≤ (2 : ℝ) ^ ((2 : ℕ) : ℝ) :=
      Real.rpow_le_rpow_of_exponent_le one_le_two (by norm_num)
    rw [Real.rpow_natCast] at h4
    nlinarith [h4]
  rw [h1, min_eq_right hle]
  intro heq
  have h36 : min (300 : ℝ) (2 * ((9 : ℝ) / 5) ^ 1) = 18 / 5 := by norm_num
  rw [h36] at heq
  have h5 : ((2 : ℝ) ^ (((9 : ℝ) / 5) ^ 1 : ℝ)) ^ (5 : ℕ) = ((18 : ℝ) / 5) ^ (5 : ℕ) := by
    rw [heq]
  rw [← Real.rpow_natCast ((2 : ℝ) ^ (((9 : ℝ) / 5) ^ 1 : ℝ)) 5,
    ← Real.rpow_mul (by norm_num : (0 : ℝ) ≤ 2)] at h5
  have h9 : (((9 : ℝ) / 5) ^ 1 * ((5 : ℕ) : ℝ)) = (((9 : ℕ) : ℝ)) := by
    push_cast
    ring
  rw [h9, Real.rpow_natCast] at h5
  norm_num at h5

/-- Claim C3, amended: with no intervening reset, the `k`-th backoff wait is
`2` raised to the power `1.8 ^ k` (the stored delay is raised to the power
1.8 after each wait, not multiplied by 1.8), clamped to the 300-second cap;
and immediately after a successful registration the stored delay is reset to
2 seconds. -/
theorem c3_backoff_waits :
    (∀ k : ℕ, backoffWait k = min 300 ((2 : ℝ) ^ (((9 : ℝ) / 5) ^ k))) ∧
      (∀ b : Backoff, (Backoff.reset b).current = 2) :=
  ⟨backoffWait_eq, fun _ => rfl⟩

/-- Claim C4: with no intervening reset the sequence of backoff waits is
non-decreasing and bounded by 300 seconds, and the first sleep after a reset
(the code resets immediately after a successful registration) waits exactly
2 seconds; moreover resetting returns the backoff to its freshly
constructed state. -/
theorem c4_backoff_monotone :
    (∀ k : ℕ, backoffWait k ≤ backoffWait (k + 1) ∧ backoffWait k ≤ 300) ∧
      (∀ k : ℕ, (Backoff.sleepStep (Backoff.reset (backoffStateSeq k))).1 = 2) ∧
      (∀ k : ℕ, Backoff.reset (backoffStateSeq k) = backoffInit) := by
  have hreset : ∀ k : ℕ, Backoff.reset (backoffStateSeq k) = backoffInit := by
    intro k
    obtain ⟨hmax, hexp, -, -⟩ := backoff_invariant k
    show (⟨2, (backoffStateSeq k).maxWait, (backoffStateSeq k).expo⟩ : Backoff)
      = backoffInit
    rw [hmax, hexp]
    rfl
  refine ⟨fun k => ?_, fun k => ?_, hreset⟩
  · rw [backoffWait_eq k, backoffWait_eq (k + 1)]
    refine ⟨min_le_min le_rfl ?_, min_le_left _ _⟩
    exact Real.rpow_le_rpow_of_exponent_le one_le_two
      (pow_le_pow_right₀ (by norm_num) (Nat.le_succ k))
  · rw [hreset k]
    show (if (2 : ℝ) > (300 : ℝ) then (300 : ℝ) else 2) = 2
    norm_num

/-! ## Nick collision during registration -/

/-- Claim C5: with registration pending, a scripted server replying `433`,
`433`, then `001` leaves the nick equal to the original nick with exactly
two suffix characters appended; a fresh NICK command is sent after each
`433` (the sent log is exactly those two NICK commands, in order); and
registration completes. -/
theorem c5_nick_collision (orig : Str) :
    (RegConn.run ⟨orig, true, false, []⟩ [.r433, .r433, .r001]).nick
        = orig ++ ['_', '_'] ∧
      (RegConn.run ⟨orig, true, false, []⟩ [.r433, .r433, .r001]).sent
        = [(['N', 'I', 'C', 'K'], [orig ++ ['_']]),
           (['N', 'I', 'C', 'K'], [orig ++ ['_', '_']])] ∧
      (RegConn.run ⟨orig, true, false, []⟩ [.r433, .r433, .r001]).futureDone
        = true := by
  refine ⟨?_, ?_, ?_⟩ <;>
    simp [RegConn.run, RegConn.step, RegConn.on_433, RegConn.on_001,
      RegConn.nickCmd, RegConn.sendCmd]

/-! ## Burst counter bounds -/

theorem drainLoop_burst_bounds (qs : List (Str × List Str × Option Str))
    (burst maxB : ℤ) (h0 : 0 ≤ burst) (hm : burst ≤ maxB) :
    0 ≤ (drainLoop qs burst maxB).2.1 ∧ (drainLoop qs burst maxB).2.1 ≤ maxB := by
  induction qs generalizing burst with
  | nil => exact ⟨h0, hm⟩
  | cons q qs ih =>
    by_cases hlt : burst < maxB
    · simp only [drainLoop, if_pos hlt]
      exact ih (burst + 1) (by linarith) (by linarith)

    · simp only [drainLoop, if_neg hlt]
      exact ⟨h0, hm⟩

theorem applySendOp_invariant (s : SendState) (op : SendOp)
    (h0 : 0 ≤ s.burst) (hm : s.burst ≤ s.maxBurst) :
    0 ≤ (applySendOp s op).burst ∧
      (applySendOp s op).burst ≤ (applySendOp s op).maxBurst ∧
      (applySendOp s op).maxBurst = s.maxBurst := by
  cases op with
  | enqueue cmd args pfx => exact ⟨h0, hm, rfl⟩
  | drain =>
    have hd := drainLoop_burst_bounds s.queue s.burst s.maxBurst h0 hm
    exact ⟨hd.1, hd.2, rfl⟩
  | timer =>
    by_cases hpos : s.burst > 0
    · simp only [applySendOp, decrement_send_burst, if_pos hpos]
      exact ⟨by linarith, by linarith, trivial⟩
    · simp only [applySendOp, decrement_send_burst, if_neg hpos]
      exact ⟨h0, hm, trivial⟩

/-- Claim C6: across every interleaving of enqueues, queue drains and
burst-decrement timer firings from the initial connection state, the burst
counter stays within `[0, 3]` (`_max_send_burst = 3`). -/
theorem c6_burst_in_range (ops : List SendOp) :
    0 ≤ (runSendOps ops).burst ∧ (runSendOps ops).burst ≤ 3 := by
  have key : ∀ (ops : List SendOp) (s : SendState), 0 ≤ s.burst →
      s.burst ≤ s.maxBurst → s.maxBurst = 3 →
      0 ≤ (ops.foldl applySendOp s).burst ∧
        (ops.foldl applySendOp s).burst ≤ (ops.foldl applySendOp s).maxBurst ∧
        (ops.foldl applySendOp s).maxBurst = 3 := by
    intro ops
    induction ops with
    | nil => exact fun s h0 hm h3 => ⟨h0, hm, h3⟩
    | cons op rest ih =>
      intro s h0 hm h3
      obtain ⟨k0, km, keq⟩ := applySendOp_invariant s op h0 hm
      exact ih (applySendOp s op) k0 km (keq.trans h3)
  obtain ⟨h0, hm, h3⟩ := key ops sendInit (by norm_num [sendInit])
    (by norm_num [sendInit]) rfl
  exact ⟨h0, h3 ▸ hm⟩

/-! ## Argument validation examples -/

/-- Claim C7: the arity-validation examples.  Spec `2` rejects `"a"` and
accepts `"a b"` as `["a", "b"]`; spec `(2, '*')` on `"a b c d"` yields
`["a", "b", "c d"]`; spec `':'` on empty input fails; spec `(0, 0)` fails on
non-empty input and yields `[]` on empty input. -/
theorem c7_validate_args_examples :
    validate_args ['a'] (.exact 2) = none ∧
      validate_args ['a', ' ', 'b'] (.exact 2) = some [['a'], ['b']] ∧
      validate_args ['a', ' ', 'b', ' ', 'c', ' ', 'd'] (.tup 2 .star)
        = some [['a'], ['b'], ['c', ' ', 'd']] ∧
      validate_args [] .colon = none ∧
      validate_args ['x'] (.tup 0 (.num 0)) = none ∧
      validate_args [] (.tup 0 (.num 0)) = some [] := by
  decide

/-! ## Channel membership on disconnect -/

/-- Claim C8: after a disconnect event (nil read), the channel membership
map is empty, whatever sequence of joins was observed before. -/
theorem c8_channels_cleared_on_disconnect (s : ConnSt)
    (joins : List (Str × Str)) :
    (process_disconnect
      (joins.foldl (fun st e => on_join st e.1 e.2) s)).channels = [] := rfl

/-! ## Usage message on validation failure -/

/-- A concrete command table: `foo` with arity spec `2` and synopsis
`foo a b`. -/
def c9Table : List (Str × Handler) :=
  [(['f', 'o', 'o'],
    ⟨['f', 'o', 'o'], .exact 2, ['f', 'o', 'o', ' ', 'a', ' ', 'b']⟩)]

/-- Claim C9, as stated, is false on one point: for the command message
`!foo x` (arity spec `2`, one argument given), the handler is indeed not
invoked and a usage message goes to the reply target, but its text is
`Usage: !foo a b` — the string `Usage: ` followed by prefix and synopsis —
not the bare `<prefix><synopsis>` the claim describes. -/
theorem c9_usage_counterexample :
    on_privmsg ['!'] true c9Table c9Table []
        ['n', '!', 'u', '@', 'h'] ['#', 'c'] ['!', 'f', 'o', 'o', ' ', 'x']
      = [BotEffect.privmsgOut ['#', 'c']
          (['U', 's', 'a', 'g', 'e', ':', ' '] ++ ['!']
            ++ ['f', 'o', 'o', ' ', 'a', ' ', 'b'])] ∧
      (['U', 's', 'a', 'g', 'e', ':', ' '] ++ ['!']
          ++ ['f', 'o', 'o', ' ', 'a', ' ', 'b'])
        ≠ ['!'] ++ ['f', 'o', 'o', ' ', 'a', ' ', 'b'] := by
  decide

/-- Claim C9, amended: for every recognized command whose argument string
fails arity validation, the handler is not invoked and the only scheduled
effect is a usage message — the text `Usage: ` followed by the command
prefix and the command's synopsis — sent to the reply scope's target. -/
theorem c9_usage_on_invalid (pfxS : Str) (isAdmin : Bool)
    (atbl ptbl : List (Str × Handler)) (mh : List Str)
    (sender target message : Str) (u : User) (h : Handler)
    (hu : parse_user sender = some u)
    (hpfx : listStartsWith pfxS message = true)
    (hlook : lookupCmd (if isAdmin then atbl else ptbl)
        (splitCmdArgs (pyStrip (message.drop pfxS.length))).1 = some h)
    (hval : validate_args (splitCmdArgs (pyStrip (message.drop pfxS.length))).2
        h.nargs = none) :
    on_privmsg pfxS isAdmin atbl ptbl mh sender target message
        = [BotEffect.privmsgOut (scopeTarget target u.nick)
            (usageText pfxS h.synopsis)] ∧
      ∀ e ∈ on_privmsg pfxS isAdmin atbl ptbl mh sender target message,
        ∀ n a, e ≠ BotEffect.runHandler n a := by
  have hmain : on_privmsg pfxS isAdmin atbl ptbl mh sender target message
      = [BotEffect.privmsgOut (scopeTarget target u.nick)
          (usageText pfxS h.synopsis)] := by
    unfold on_privmsg
    rw [hu]
    simp only [hpfx, if_true, hlook, hval]
  refine ⟨hmain, ?_⟩
  rw [hmain]
  intro e he n a
  simp only [List.mem_singleton] at he
  subst he
  simp

/-- Witness for `c9_usage_on_invalid`: the scenario of
`c9_usage_counterexample` (`!foo x` from `n!u@h` on channel `#c`). -/
theorem c9_usage_on_invalid_witness :
    on_privmsg ['!'] true c9Table c9Table []
        ['n', '!', 'u', '@', 'h'] ['#', 'c'] ['!', 'f', 'o', 'o', ' ', 'x']
      = [BotEffect.privmsgOut
          (scopeTarget ['#', 'c'] ['n'])
          (usageText ['!'] ['f', 'o', 'o', ' ', 'a', ' ', 'b'])] :=
  (c9_usage_on_invalid ['!'] true c9Table c9Table []
    ['n', '!', 'u', '@', 'h'] ['#', 'c'] ['!', 'f', 'o', 'o', ' ', 'x']
    ⟨['n'], some ['u'], some ['h']⟩
    ⟨['f', 'o', 'o'], .exact 2, ['f', 'o', 'o', ' ', 'a', ' ', 'b']⟩
    (by decide) (by decide) (by decide) (by decide)).1

/-! ## Reconfiguration leaves the registration identity untouched -/

/-- Claim C10: `_apply_changes` never writes the private `_username` and
`_realname` attributes read by `register()` — it assigns the distinct plain
`username`/`realname` attributes — so the USER command of a subsequent
registration is unchanged by any reconfiguration, even one supplying
different `username`/`realname` values. -/
theorem c10_reconfigure_preserves_identity (cfg : ReconfigCfg) (s : BotConnSt) :
    (apply_changes cfg s).regUsername = s.regUsername ∧
      (apply_changes cfg s).regRealname = s.regRealname ∧
      registerUserCmd (apply_changes cfg s) = registerUserCmd s := by
  have key : (apply_changes cfg s).regUsername = s.regUsername ∧
      (apply_changes cfg s).regRealname = s.regRealname := by
    obtain ⟨server, port, nick, pw, un, rn⟩ := cfg
    unfold apply_changes
    cases pw <;> cases un <;> cases rn <;>
      · dsimp only
        split_ifs <;> exact ⟨rfl, rfl⟩
  refine ⟨key.1, key.2, ?_⟩
  unfold registerUserCmd
  rw [key.1, key.2]

end Sinap
